import Mathlib

/-!
Verification of the product-catalog core of the INE5454 video-game search
repository: the Normalizer (`src/app/lib/utils.ts`), the Catalog
(`lib/data-loader.ts`) and the Query Engine
(`src/app/app/api/products/route.ts`).

Modelling conventions:
* JavaScript numbers are modelled as exact rationals (`ℚ`).  The special
  values produced by `parseFloat` (`NaN`, `Infinity`, `-Infinity`) are
  modelled by the dedicated type `JSNum`; binary floating-point rounding and
  overflow to `Infinity` of astronomically large literals are idealised away.
* JavaScript strings are Lean `String`s; the `\s` character class of the
  regexes involved is modelled by its ASCII subset (space, tab, LF, CR).
* The process-wide mutable cache of `data-loader.ts` and the in-place
  mutation performed by `Array.prototype.sort` are modelled by explicit
  state passing: each operation returns its result together with the new
  cache value.
-/

namespace VGC

/-- Character class of the `\s` regex escape and of `String.prototype.trim`
(ASCII subset). -/
def isJsSpace (c : Char) : Bool :=
  c == ' ' || c == '\t' || c == '\n' || c == '\r'

/-- A string that is empty or whitespace-only, i.e. `s.trim() === ''`
(also covers the falsiness test `!s` for the empty string). -/
def isBlank (s : String) : Bool :=
  s.toList.all isJsSpace

/-- Value of a decimal digit character. -/
def digitVal (c : Char) : ℕ := c.toNat - 48

/-- Value of a string of decimal digits (most significant first). -/
def digitsVal (ds : List Char) : ℕ :=
  ds.foldl (fun n c => 10 * n + digitVal c) 0

/-- Result type of `parseFloat`: an exact rational, one of the two
infinities, or `NaN`. -/
inductive JSNum where
  | num (q : ℚ)
  | inf
  | ninf
  | nan
deriving DecidableEq, Repr

/-- Negation of a `JSNum` (used for a leading `-` sign). -/
def jsNeg : JSNum → JSNum
  | .num q => .num (-q)
  | .inf => .ninf
  | .ninf => .inf
  | .nan => .nan

/-- Projection of a `JSNum` to `ℚ`.  `nan` is mapped to `0` (matching the
`isNaN(num) ? 0 : num` guard of `normalizePrice`); the infinities,
reachable through pathological price strings such as `"Infinity"` (and, in
the program, literals beyond the double range such as `"1e999"`, whose
overflow this exact-rational model does not reproduce), are idealised to
`0`.  No claim about the catalog depends on the price value produced for
such strings. -/
def JSNum.toRat : JSNum → ℚ
  | .num q => q
  | _ => 0

/-- Longest digit prefix of `parseFloat`'s `StrUnsignedDecimalLiteral`
grammar: `digits [. digits]` or `. digits`; returns the exact value and the
remaining characters (before the exponent part). -/
def parseMantissa (cs : List Char) : Option (ℚ × List Char) :=
  let d1 := cs.takeWhile Char.isDigit
  let r1 := cs.dropWhile Char.isDigit
  if d1.isEmpty then
    match r1 with
    | '.' :: r2 =>
      let d2 := r2.takeWhile Char.isDigit
      if d2.isEmpty then none
      else some ((digitsVal d2 : ℚ) / 10 ^ d2.length, r2.dropWhile Char.isDigit)
    | _ => none
  else
    match r1 with
    | '.' :: r2 =>
      let d2 := r2.takeWhile Char.isDigit
      some ((digitsVal d1 : ℚ) + (digitsVal d2 : ℚ) / 10 ^ d2.length,
            r2.dropWhile Char.isDigit)
    | _ => some ((digitsVal d1 : ℚ), r1)

/-- Exponent part `e|E [+|-] digits` of the decimal literal; an `e` not
followed by at least one digit is not part of the literal and contributes
exponent `0`. -/
def parseExponent (cs : List Char) : ℤ :=
  match cs with
  | c :: rest =>
    if c = 'e' ∨ c = 'E' then
      match rest with
      | '-' :: r2 =>
        let d := r2.takeWhile Char.isDigit
        if d.isEmpty then 0 else -(digitsVal d : ℤ)
      | '+' :: r2 =>
        let d := r2.takeWhile Char.isDigit
        if d.isEmpty then 0 else (digitsVal d : ℤ)
      | r2 =>
        let d := r2.takeWhile Char.isDigit
        if d.isEmpty then 0 else (digitsVal d : ℤ)
    else 0
  | [] => 0

/-- Scale an exact mantissa by a power of ten. -/
def applyExp (m : ℚ) (ex : ℤ) : ℚ :=
  if 0 ≤ ex then m * 10 ^ ex.toNat else m / 10 ^ (-ex).toNat

/-- Unsigned part of `parseFloat`: the literal `Infinity` or a decimal
literal with optional exponent; no valid prefix yields `NaN`. -/
def parseUnsignedFloat (cs : List Char) : JSNum :=
  if cs.take 8 = "Infinity".toList then JSNum.inf
  else
    match parseMantissa cs with
    | none => JSNum.nan
    | some (m, rest) => JSNum.num (applyExp m (parseExponent rest))

/-- ECMAScript `parseFloat`: skip leading whitespace, optional sign, then
the longest prefix that is a `StrDecimalLiteral`; exact-rational semantics. -/
def parseFloat (s : String) : JSNum :=
  let cs := s.toList.dropWhile isJsSpace
  match cs with
  | '-' :: r => jsNeg (parseUnsignedFloat r)
  | '+' :: r => parseUnsignedFloat r
  | _ => parseUnsignedFloat cs

/-- Replace the first occurrence of `a` by `b`
(JavaScript `String.prototype.replace` with a string pattern). -/
def replaceFirst : List Char → Char → Char → List Char
  | [], _, _ => []
  | c :: rest, a, b => if c = a then b :: rest else c :: replaceFirst rest a b

/-- JavaScript `String.prototype.split` with a single-character separator. -/
def splitOnChar (a : Char) : List Char → List (List Char)
  | [] => [[]]
  | c :: rest =>
    let r := splitOnChar a rest
    if c = a then [] :: r
    else
      match r with
      | h :: t => (c :: h) :: t
      | [] => [[c]]

/-- Normalizer `normalizePrice` of `src/app/lib/utils.ts`:
empty input is `0`; whitespace is stripped; a comma means dots are
thousands separators and the comma (first occurrence) is the decimal point;
otherwise a single dot with a two-digit fraction is kept as a decimal
point, and any other dots are removed as thousands separators; the result
is `parseFloat` of the cleaned text with `NaN` mapped to `0`. -/
def normalizePrice (priceStr : String) : JSNum :=
  if isBlank priceStr then JSNum.num 0
  else
    let cleaned0 : List Char := priceStr.toList.filter (fun c => !(isJsSpace c))
    let cleaned : List Char :=
      if cleaned0.contains ',' then
        replaceFirst (cleaned0.filter (fun c => c != '.')) ',' '.'
      else if cleaned0.contains '.' then
        let parts := splitOnChar '.' cleaned0
        if parts.length = 2 ∧ (parts.getD 1 []).length = 2 then cleaned0
        else cleaned0.filter (fun c => c != '.')
      else cleaned0
    match parseFloat (String.mk cleaned) with
    | JSNum.nan => JSNum.num 0
    | v => v

/-- The optional fraction group `(?:[.,]\d+)?` after the integer digits
`d1`: when the remainder `r1` starts with a separator followed by at least
one digit the group matches greedily, otherwise it is skipped.  Returns
the capture so far and the remainder. -/
def numTail (d1 r1 : List Char) : List Char × List Char :=
  match r1 with
  | sep :: rest =>
    if sep = '.' ∨ sep = ',' then
      let d2 := rest.takeWhile Char.isDigit
      if d2.isEmpty then (d1, r1)
      else (d1 ++ sep :: d2, rest.dropWhile Char.isDigit)
    else (d1, r1)
  | [] => (d1, r1)

/-- Attempt to match the regex `(\d+(?:[.,]\d+)?)\s*<u1><u2>` (the unit
literal case-insensitively) at the very beginning of `cs`, returning the
text captured by group 1.  Greedy matching with backtracking never
revisits shorter digit runs here: shortening a digit run leaves a digit in
a position where only `\s*` followed by the unit literal may match. -/
def matchAt (u1 u2 : Char) (cs : List Char) : Option (List Char) :=
  let d1 := cs.takeWhile Char.isDigit
  if d1.isEmpty then none
  else
    let p := numTail d1 (cs.dropWhile Char.isDigit)
    match p.2.dropWhile isJsSpace with
    | a :: b :: _ =>
      if a.toLower = u1 ∧ b.toLower = u2 then some p.1 else none
    | _ => none

/-- Leftmost match of the capacity pattern
(JavaScript `String.prototype.match` without the `g` flag). -/
def findMatch (u1 u2 : Char) : List Char → Option (List Char)
  | [] => none
  | c :: t =>
    match matchAt u1 u2 (c :: t) with
    | some m => some m
    | none => findMatch u1 u2 t

/-- Try one capacity pattern: on a match, the captured number (comma
replaced by a dot) is parsed; a `NaN` value lets the loop continue with the
next pattern, which is modelled by returning `none`. -/
def tryPattern (u1 u2 : Char) (cs : List Char) : Option ℚ :=
  match findMatch u1 u2 cs with
  | none => none
  | some m =>
    match parseFloat (String.mk (replaceFirst m ',' '.')) with
    | JSNum.num v => some v
    | _ => none

/-- Normalizer `extractStorageInGB` of `src/app/lib/utils.ts`: the TB
pattern `/(\d+(?:[.,]\d+)?)\s*TB/i` is tried before the GB pattern
`/(\d+(?:[.,]\d+)?)\s*GB/i`; TB values are scaled by 1024; no match yields
`null` (modelled as `none`). -/
def extractStorageInGB (storageStr : String) : Option ℚ :=
  if isBlank storageStr then none
  else
    match tryPattern 't' 'b' storageStr.toList with
    | some v => some (v * 1024)
    | none =>
      match tryPattern 'g' 'b' storageStr.toList with
      | some v => some v
      | none => none

/-- Normalizer `hasGames` of `src/app/lib/utils.ts`: true iff the
bundled-games text is non-empty after trimming. -/
def hasGames (jogosIncluidos : String) : Bool :=
  !(isBlank jogosIncluidos)

/-- Interface `RawProduct` of `lib/types.ts`: one scraped listing, all
fields free-form text. -/
structure RawProduct where
  preco_vista : String
  preco_parcelado : String
  modelo : String
  nome_anuncio : String
  link_pagina : String
  tipo : String
  console_type : String
  cor : String
  com_leitor_disco : String
  espaco_armazenamento : String
  jogos_incluidos : String
  inclui_controles : String
  marca : String
  site_origem : String
  data_coleta : String
  disponibilidade : String
deriving DecidableEq, Repr

/-- Interface `Product` of `lib/types.ts` (the canonical record).  The
extra field `originalIndex` is NOT declared by `lib/types.ts` and is never
assigned anywhere in the repository, yet `route.ts` reads it in its
`sortBy === 'original'` comparator; it is modelled as an always-absent
JavaScript property (`Option ℕ`, populated by no code path). -/
structure Product where
  preco_vista : ℚ
  preco_parcelado : String
  modelo : String
  nome_anuncio : String
  link_pagina : String
  tipo : String
  console_type : String
  cor : String
  com_leitor_disco : String
  espaco_armazenamento : String
  espaco_armazenamento_gb : Option ℚ
  jogos_incluidos : String
  inclui_jogos : Bool
  inclui_controles : String
  marca : String
  site_origem : String
  data_coleta : String
  disponibilidade : String
  originalIndex : Option ℕ
deriving DecidableEq, Repr

/-- Normalization of one raw record inside `loadProducts`
(`lib/data-loader.ts`): the spread `{...raw, ...}` carries every raw field
through and overrides the three derived ones.  No `originalIndex` is ever
written. -/
def normalizeRaw (raw : RawProduct) : Product :=
  { preco_vista := (normalizePrice raw.preco_vista).toRat
    preco_parcelado := raw.preco_parcelado
    modelo := raw.modelo
    nome_anuncio := raw.nome_anuncio
    link_pagina := raw.link_pagina
    tipo := raw.tipo
    console_type := raw.console_type
    cor := raw.cor
    com_leitor_disco := raw.com_leitor_disco
    espaco_armazenamento := raw.espaco_armazenamento
    espaco_armazenamento_gb := extractStorageInGB raw.espaco_armazenamento
    jogos_incluidos := raw.jogos_incluidos
    inclui_jogos := hasGames raw.jogos_incluidos
    inclui_controles := raw.inclui_controles
    marca := raw.marca
    site_origem := raw.site_origem
    data_coleta := raw.data_coleta
    disponibilidade := raw.disponibilidade
    originalIndex := none }

/-- Pure core of `loadProducts`: concatenate the two source lists in the
order given (`[...magazineluizaData, ...mercadolivreData]`) and normalize
every record. -/
def loadCombine (magazineluizaData mercadolivreData : List RawProduct) :
    List Product :=
  (magazineluizaData ++ mercadolivreData).map normalizeRaw

/-- Stateful `loadProducts` of `lib/data-loader.ts`.  A source that cannot
be read or parsed is `none`; the process-wide cache `cachedProducts` is
passed and returned explicitly.  A populated cache is returned as is; on a
read failure the `catch` block returns `[]` WITHOUT writing the cache; a
successful load writes the cache. -/
def loadProducts (src1 src2 : Option (List RawProduct))
    (cachedProducts : Option (List Product)) :
    List Product × Option (List Product) :=
  match cachedProducts with
  | some c => (c, some c)
  | none =>
    match src1, src2 with
    | some s1, some s2 =>
      let normalizedProducts := loadCombine s1 s2
      (normalizedProducts, some normalizedProducts)
    | _, _ => ([], none)

/-- JavaScript `Set` insertion order: keep the first occurrence of each
element (`getFilterValues` inserts into a `Set` and later converts with
`Array.from`). -/
def jsDedup (l : List String) : List String :=
  l.foldl (fun acc s => if s ∈ acc then acc else acc ++ [s]) []

/-- JavaScript `Array.prototype.sort()` on strings: lexicographic order. -/
def sortStrings (l : List String) : List String :=
  l.insertionSort (· ≤ ·)

/-- The `Array.from(set).sort()` idiom of `getFilterValues`. -/
def distinctSorted (l : List String) : List String :=
  sortStrings (jsDedup l)

/-- One `Math.min` step of the `precoMin`/`espacoMin` accumulators, whose
initial value `Infinity` is modelled by `none`. -/
def omin (acc : Option ℚ) (q : ℚ) : Option ℚ :=
  some (match acc with | none => q | some m => min m q)

/-- The `precoMin` accumulator of `getFilterValues`: minimum over the
positive prices, `Infinity` (here `none`) when there is none. -/
def precoMinFold (products : List Product) : Option ℚ :=
  products.foldl
    (fun acc p => if 0 < p.preco_vista then omin acc p.preco_vista else acc) none

/-- The `precoMax` accumulator of `getFilterValues`: starts at `0`, takes
`Math.max` over the positive prices. -/
def precoMaxFold (products : List Product) : ℚ :=
  products.foldl
    (fun acc p => if 0 < p.preco_vista then max acc p.preco_vista else acc) 0

/-- The `espacoMin` accumulator of `getFilterValues`. -/
def espacoMinFold (products : List Product) : Option ℚ :=
  products.foldl
    (fun acc p =>
      match p.espaco_armazenamento_gb with
      | some g => omin acc g
      | none => acc) none

/-- The `espacoMax` accumulator of `getFilterValues`. -/
def espacoMaxFold (products : List Product) : ℚ :=
  products.foldl
    (fun acc p =>
      match p.espaco_armazenamento_gb with
      | some g => max acc g
      | none => acc) 0

/-- Shape of the `filters` object returned by `getFilterValues`
(`Math.floor`/`Math.ceil` produce integers). -/
structure FilterValues where
  modelos : List String
  tipos : List String
  marcas : List String
  sites : List String
  precoMin : ℤ
  precoMax : ℤ
  espacoMin : ℤ
  espacoMax : ℤ
deriving DecidableEq, Repr

/-- Facet computation `getFilterValues` of `lib/data-loader.ts`: sorted
distinct non-blank categorical values, and floor/ceil of the observed
min/max with the fallbacks `0`, `10000`, `0`, `2000`. -/
def getFilterValues (products : List Product) : FilterValues :=
  { modelos := distinctSorted
      ((products.filter (fun p => !(isBlank p.modelo))).map Product.modelo)
    tipos := distinctSorted
      ((products.filter (fun p => !(isBlank p.tipo))).map Product.tipo)
    marcas := distinctSorted
      ((products.filter (fun p => !(isBlank p.marca))).map Product.marca)
    sites := distinctSorted
      ((products.filter (fun p => !(isBlank p.site_origem))).map Product.site_origem)
    precoMin :=
      match precoMinFold products with
      | none => 0
      | some q => Int.floor q
    precoMax :=
      let m := precoMaxFold products
      if m = 0 then 10000 else Int.ceil m
    espacoMin :=
      match espacoMinFold products with
      | none => 0
      | some q => Int.floor q
    espacoMax :=
      let m := espacoMaxFold products
      if m = 0 then 2000 else Int.ceil m }

/-- Interface `SearchFilters` of `lib/types.ts`, as populated by the
query-string parsing at the top of `route.ts` (`page` and `limit` are
always set there, so they are plain integers here; `sortBy` is an
arbitrary string because of the unchecked cast). -/
structure SearchFilters where
  query : Option String
  precoMin : Option ℚ
  precoMax : Option ℚ
  modelo : Option (List String)
  tipo : Option (List String)
  marca : Option (List String)
  site_origem : Option (List String)
  inclui_controles : Option String
  inclui_jogos : Option Bool
  espacoMin : Option ℚ
  espacoMax : Option ℚ
  sortBy : String
  page : ℤ
  limit : ℤ
deriving DecidableEq, Repr

/-- Substring test on character lists (`String.prototype.includes`):
`startsWithB` compares the needle against a prefix of the haystack. -/
def startsWithB : List Char → List Char → Bool
  | [], _ => true
  | _ :: _, [] => false
  | a :: as, b :: bs => a == b && startsWithB as bs

/-- Substring test on character lists (`String.prototype.includes`). -/
def hasSubstr (needle : List Char) : List Char → Bool
  | [] => needle.isEmpty
  | c :: t => startsWithB needle (c :: t) || hasSubstr needle t

/-- The `searchableText` of the free-text filter in `route.ts`:
lower-cased join of the non-empty ones among name, model, type, brand and
color. -/
def searchableText (p : Product) : String :=
  (String.intercalate " "
    ([p.nome_anuncio, p.modelo, p.tipo, p.marca, p.cor].filter
      (fun s => s != ""))).toLower

/-- Truthiness of `filters.query` (`if (filters.query)`). -/
def queryActive (f : SearchFilters) : Bool := f.query.getD "" != ""

/-- Condition `filters.precoMin !== undefined`. -/
def precoMinActive (f : SearchFilters) : Bool := f.precoMin.isSome

/-- Condition `filters.precoMax !== undefined`. -/
def precoMaxActive (f : SearchFilters) : Bool := f.precoMax.isSome

/-- Condition `filters.modelo && filters.modelo.length > 0`. -/
def modeloActive (f : SearchFilters) : Bool := !(f.modelo.getD []).isEmpty

/-- Condition `filters.tipo && filters.tipo.length > 0`. -/
def tipoActive (f : SearchFilters) : Bool := !(f.tipo.getD []).isEmpty

/-- Condition `filters.marca && filters.marca.length > 0`. -/
def marcaActive (f : SearchFilters) : Bool := !(f.marca.getD []).isEmpty

/-- Condition `filters.site_origem && filters.site_origem.length > 0`. -/
def siteActive (f : SearchFilters) : Bool := !(f.site_origem.getD []).isEmpty

/-- Condition `filters.inclui_controles !== undefined`. -/
def controlesActive (f : SearchFilters) : Bool := f.inclui_controles.isSome

/-- Condition `filters.inclui_jogos !== undefined`. -/
def jogosActive (f : SearchFilters) : Bool := f.inclui_jogos.isSome

/-- Condition `filters.espacoMin !== undefined`. -/
def espacoMinActive (f : SearchFilters) : Bool := f.espacoMin.isSome

/-- Condition `filters.espacoMax !== undefined`. -/
def espacoMaxActive (f : SearchFilters) : Bool := f.espacoMax.isSome

/-- Free-text filter stage of `route.ts`. -/
def filterQuery (f : SearchFilters) (l : List Product) : List Product :=
  if queryActive f then
    l.filter (fun p =>
      hasSubstr (f.query.getD "").toLower.toList (searchableText p).toList)
  else l

/-- Inclusive lower price bound stage. -/
def filterPrecoMin (f : SearchFilters) (l : List Product) : List Product :=
  if precoMinActive f then
    l.filter (fun p => decide (f.precoMin.getD 0 ≤ p.preco_vista))
  else l

/-- Inclusive upper price bound stage. -/
def filterPrecoMax (f : SearchFilters) (l : List Product) : List Product :=
  if precoMaxActive f then
    l.filter (fun p => decide (p.preco_vista ≤ f.precoMax.getD 0))
  else l

/-- Model inclusion-set stage. -/
def filterModelo (f : SearchFilters) (l : List Product) : List Product :=
  if modeloActive f then
    l.filter (fun p => (f.modelo.getD []).contains p.modelo)
  else l

/-- Type inclusion-set stage. -/
def filterTipo (f : SearchFilters) (l : List Product) : List Product :=
  if tipoActive f then
    l.filter (fun p => (f.tipo.getD []).contains p.tipo)
  else l

/-- Brand inclusion-set stage. -/
def filterMarca (f : SearchFilters) (l : List Product) : List Product :=
  if marcaActive f then
    l.filter (fun p => (f.marca.getD []).contains p.marca)
  else l

/-- Source-site inclusion-set stage. -/
def filterSite (f : SearchFilters) (l : List Product) : List Product :=
  if siteActive f then
    l.filter (fun p => (f.site_origem.getD []).contains p.site_origem)
  else l

/-- Exact-match stage on the raw `inclui_controles` text. -/
def filterControles (f : SearchFilters) (l : List Product) : List Product :=
  if controlesActive f then
    l.filter (fun p => p.inclui_controles == f.inclui_controles.getD "")
  else l

/-- Boolean stage on the derived `inclui_jogos` flag. -/
def filterJogos (f : SearchFilters) (l : List Product) : List Product :=
  if jogosActive f then
    l.filter (fun p => p.inclui_jogos == f.inclui_jogos.getD false)
  else l

/-- Inclusive lower storage bound stage; records with absent storage never
match (`p.espaco_armazenamento_gb !== null && ...`). -/
def filterEspacoMin (f : SearchFilters) (l : List Product) : List Product :=
  if espacoMinActive f then
    l.filter (fun p =>
      match p.espaco_armazenamento_gb with
      | some g => decide (f.espacoMin.getD 0 ≤ g)
      | none => false)
  else l

/-- Inclusive upper storage bound stage. -/
def filterEspacoMax (f : SearchFilters) (l : List Product) : List Product :=
  if espacoMaxActive f then
    l.filter (fun p =>
      match p.espaco_armazenamento_gb with
      | some g => decide (g ≤ f.espacoMax.getD 0)
      | none => false)
  else l

/-- The filter pipeline of `route.ts`, in source order. -/
def applyFilters (f : SearchFilters) (l : List Product) : List Product :=
  filterEspacoMax f (filterEspacoMin f (filterJogos f (filterControles f
    (filterSite f (filterMarca f (filterTipo f (filterModelo f
      (filterPrecoMax f (filterPrecoMin f (filterQuery f l))))))))))

/-- True iff at least one `if` branch of the filter pipeline runs, i.e.
iff `products` has been rebound to a fresh array before the sort. -/
def someFilterActive (f : SearchFilters) : Bool :=
  queryActive f || precoMinActive f || precoMaxActive f || modeloActive f ||
  tipoActive f || marcaActive f || siteActive f || controlesActive f ||
  jogosActive f || espacoMinActive f || espacoMaxActive f

/-- Comparison used for `sortBy === 'preco_asc'`: the comparator
`(a, b) => a.preco_vista - b.preco_vista` keeps `a` no later than `b`
exactly when the difference is `<= 0`. -/
def priceLe (a b : Product) : Prop := a.preco_vista ≤ b.preco_vista

/-- Comparison used for `sortBy === 'preco_desc'`
(`(a, b) => b.preco_vista - a.preco_vista`). -/
def priceGe (a b : Product) : Prop := b.preco_vista ≤ a.preco_vista

/-- Comparison used for `sortBy === 'original'` (and for a falsy
`sortBy`): the comparator `(a, b) => a.originalIndex - b.originalIndex`
computes `undefined - undefined = NaN` for every pair because
`originalIndex` is never assigned, and `SortCompare` maps a `NaN`
comparator result to `+0`, so every pair compares as tied. -/
def originalTie (_a _b : Product) : Prop := True

instance : DecidableRel priceLe :=
  fun a b => inferInstanceAs (Decidable (a.preco_vista ≤ b.preco_vista))

instance : DecidableRel priceGe :=
  fun a b => inferInstanceAs (Decidable (b.preco_vista ≤ a.preco_vista))

instance : DecidableRel originalTie := fun _ _ => Decidable.isTrue trivial

instance : IsTotal Product priceLe := ⟨fun a b => le_total a.preco_vista b.preco_vista⟩

instance : IsTrans Product priceLe := ⟨fun _ _ _ h1 h2 => le_trans h1 h2⟩

instance : IsTotal Product priceGe := ⟨fun a b => le_total b.preco_vista a.preco_vista⟩

instance : IsTrans Product priceGe := ⟨fun _ _ _ h1 h2 => le_trans h2 h1⟩

/-- The sort stage of `route.ts`.  `Array.prototype.sort` is required to be
a stable sort; a stable sort with a consistent comparator has a unique
result, modelled here by insertion sort.  An unrecognized truthy `sortBy`
falls through all three branches and no sort call happens. -/
def applySort (sortBy : String) (l : List Product) : List Product :=
  if sortBy = "preco_asc" then l.insertionSort priceLe
  else if sortBy = "preco_desc" then l.insertionSort priceGe
  else if sortBy = "original" ∨ sortBy = "" then l.insertionSort originalTie
  else l

/-- ECMAScript `Array.prototype.slice(start, end)` with integer
arguments: negative indices count from the end, then both are clamped to
`[0, length]`. -/
def jsSlice {α : Type} (start stop : ℤ) (l : List α) : List α :=
  let len : ℤ := l.length
  let s := if start < 0 then max (len + start) 0 else min start len
  let e := if stop < 0 then max (len + stop) 0 else min stop len
  (l.drop s.toNat).take (e - s).toNat

/-- Shape of the JSON body built by `GET` (`SearchResponse` of
`lib/types.ts`). -/
structure SearchResponse where
  products : List Product
  total : ℕ
  page : ℤ
  limit : ℤ
  totalPages : ℤ
  filters : FilterValues
deriving DecidableEq, Repr

/-- Handler `GET` of `src/app/app/api/products/route.ts`, evaluated over
the already-loaded cache.  `filter` allocates a fresh array while `sort`
reorders its receiver in place, so when no filter stage runs the sort
permutes the cached array itself; the second `loadProducts()` call then
returns that (possibly reordered) cache, which feeds `getFilterValues`.
The pair returned is (response, cache after the call).
`Math.ceil(total / limit)` is exact-rational division here (`limit >= 1`
in every claim; JavaScript's `Infinity` for `limit = 0` is not modelled). -/
def GET (cache : List Product) (f : SearchFilters) :
    SearchResponse × List Product :=
  let sorted := applySort f.sortBy (applyFilters f cache)
  let newCache := if someFilterActive f then cache else applySort f.sortBy cache
  let total : ℕ := sorted.length
  let page : ℤ := if f.page = 0 then 1 else f.page
  let limit : ℤ := if f.limit = 0 then 20 else f.limit
  let startIndex := (page - 1) * limit
  let endIndex := startIndex + limit
  ({ products := jsSlice startIndex endIndex sorted
     total := total
     page := page
     limit := limit
     totalPages := Int.ceil ((total : ℚ) / (limit : ℚ))
     filters := getFilterValues newCache }, newCache)

/-- Concrete raw record used by the concrete theorems below. -/
def mkRaw (nome preco : String) : RawProduct :=
  { preco_vista := preco
    preco_parcelado := ""
    modelo := ""
    nome_anuncio := nome
    link_pagina := ""
    tipo := ""
    console_type := ""
    cor := ""
    com_leitor_disco := ""
    espaco_armazenamento := ""
    jogos_incluidos := ""
    inclui_controles := ""
    marca := ""
    site_origem := ""
    data_coleta := ""
    disponibilidade := "" }

/-- Concrete canonical record used by the concrete theorems below. -/
def mkProd (nome : String) (preco : ℚ) : Product :=
  { preco_vista := preco
    preco_parcelado := ""
    modelo := ""
    nome_anuncio := nome
    link_pagina := ""
    tipo := ""
    console_type := ""
    cor := ""
    com_leitor_disco := ""
    espaco_armazenamento := ""
    espaco_armazenamento_gb := none
    jogos_incluidos := ""
    inclui_jogos := false
    inclui_controles := ""
    marca := ""
    site_origem := ""
    data_coleta := ""
    disponibilidade := ""
    originalIndex := none }

/-- Query spec with every field unconstrained and the default sort mode. -/
def fBase : SearchFilters :=
  { query := none
    precoMin := none
    precoMax := none
    modelo := none
    tipo := none
    marca := none
    site_origem := none
    inclui_controles := none
    inclui_jogos := none
    espacoMin := none
    espacoMax := none
    sortBy := "original"
    page := 1
    limit := 20 }

/-- Two-record cache with prices out of price order. -/
def cacheAB : List Product := [mkProd "A" 10, mkProd "B" 5]

/-- Two query specs agree on everything except (possibly) their filter
fields: same sort mode, page and page size. -/
def sameNonFilterFields (f g : SearchFilters) : Prop :=
  f.sortBy = g.sortBy ∧ f.page = g.page ∧ f.limit = g.limit

instance (f g : SearchFilters) : Decidable (sameNonFilterFields f g) :=
  inferInstanceAs (Decidable (_ ∧ _ ∧ _))

theorem filterQuery_sublist (f : SearchFilters) (l : List Product) :
    List.Sublist (filterQuery f l) l := by
  unfold filterQuery; split
  · exact List.filter_sublist l
  · exact List.Sublist.refl l

theorem filterPrecoMin_sublist (f : SearchFilters) (l : List Product) :
    List.Sublist (filterPrecoMin f l) l := by
  unfold filterPrecoMin; split
  · exact List.filter_sublist l
  · exact List.Sublist.refl l

theorem filterPrecoMax_sublist (f : SearchFilters) (l : List Product) :
    List.Sublist (filterPrecoMax f l) l := by
  unfold filterPrecoMax; split
  · exact List.filter_sublist l
  · exact List.Sublist.refl l

theorem filterModelo_sublist (f : SearchFilters) (l : List Product) :
    List.Sublist (filterModelo f l) l := by
  unfold filterModelo; split
  · exact List.filter_sublist l
  · exact List.Sublist.refl l

theorem filterTipo_sublist (f : SearchFilters) (l : List Product) :
    List.Sublist (filterTipo f l) l := by
  unfold filterTipo; split
  · exact List.filter_sublist l
  · exact List.Sublist.refl l

theorem filterMarca_sublist (f : SearchFilters) (l : List Product) :
    List.Sublist (filterMarca f l) l := by
  unfold filterMarca; split
  · exact List.filter_sublist l
  · exact List.Sublist.refl l

theorem filterSite_sublist (f : SearchFilters) (l : List Product) :
    List.Sublist (filterSite f l) l := by
  unfold filterSite; split
  · exact List.filter_sublist l
  · exact List.Sublist.refl l

theorem filterControles_sublist (f : SearchFilters) (l : List Product) :
    List.Sublist (filterControles f l) l := by
  unfold filterControles; split
  · exact List.filter_sublist l
  · exact List.Sublist.refl l

theorem filterJogos_sublist (f : SearchFilters) (l : List Product) :
    List.Sublist (filterJogos f l) l := by
  unfold filterJogos; split
  · exact List.filter_sublist l
  · exact List.Sublist.refl l

theorem filterEspacoMin_sublist (f : SearchFilters) (l : List Product) :
    List.Sublist (filterEspacoMin f l) l := by
  unfold filterEspacoMin; split
  · exact List.filter_sublist l
  · exact List.Sublist.refl l

theorem filterEspacoMax_sublist (f : SearchFilters) (l : List Product) :
    List.Sublist (filterEspacoMax f l) l := by
  unfold filterEspacoMax; split
  · exact List.filter_sublist l
  · exact List.Sublist.refl l

/-- The filter pipeline only ever removes records. -/
theorem applyFilters_sublist (f : SearchFilters) (l : List Product) :
    List.Sublist (applyFilters f l) l := by
  have h1 := filterQuery_sublist f l
  have h2 := (filterPrecoMin_sublist f (filterQuery f l)).trans h1
  have h3 := (filterPrecoMax_sublist f _).trans h2
  have h4 := (filterModelo_sublist f _).trans h3
  have h5 := (filterTipo_sublist f _).trans h4
  have h6 := (filterMarca_sublist f _).trans h5
  have h7 := (filterSite_sublist f _).trans h6
  have h8 := (filterControles_sublist f _).trans h7
  have h9 := (filterJogos_sublist f _).trans h8
  have h10 := (filterEspacoMin_sublist f _).trans h9
  exact (filterEspacoMax_sublist f _).trans h10

/-- When no filter condition holds, the pipeline is the identity (the
`products` variable is never rebound). -/
theorem applyFilters_of_inactive {f : SearchFilters}
    (h : someFilterActive f = false) (l : List Product) :
    applyFilters f l = l := by
  simp only [someFilterActive, Bool.or_eq_false_iff] at h
  obtain ⟨⟨⟨⟨⟨⟨⟨⟨⟨⟨h1, h2⟩, h3⟩, h4⟩, h5⟩, h6⟩, h7⟩, h8⟩, h9⟩, h10⟩, h11⟩ := h
  rw [applyFilters, filterQuery, filterPrecoMin, filterPrecoMax, filterModelo,
    filterTipo, filterMarca, filterSite, filterControles, filterJogos,
    filterEspacoMin, filterEspacoMax, h1, h2, h3, h4, h5, h6, h7, h8, h9, h10, h11]
  simp

theorem orderedInsert_originalTie (a : Product) (l : List Product) :
    List.orderedInsert originalTie a l = a :: l := by
  cases l <;> simp [List.orderedInsert, originalTie]

/-- A stable sort whose comparator reports every pair as tied is the
identity permutation. -/
theorem insertionSort_originalTie (l : List Product) :
    l.insertionSort originalTie = l := by
  induction l with
  | nil => rfl
  | cons a t ih => simp [List.insertionSort, orderedInsert_originalTie, ih]

theorem applySort_perm (s : String) (l : List Product) : (applySort s l).Perm l := by
  unfold applySort
  split
  · exact List.perm_insertionSort priceLe l
  split
  · exact List.perm_insertionSort priceGe l
  split
  · rw [insertionSort_originalTie]
  · exact List.Perm.refl l

theorem applySort_length (s : String) (l : List Product) :
    (applySort s l).length = l.length :=
  (applySort_perm s l).length_eq

theorem mem_jsDedup_foldl (l : List String) : ∀ (acc : List String) (x : String),
    (x ∈ l.foldl (fun acc s => if s ∈ acc then acc else acc ++ [s]) acc ↔
      x ∈ acc ∨ x ∈ l) := by
  induction l with
  | nil => simp
  | cons a t ih =>
    intro acc x
    simp only [List.foldl_cons]
    by_cases h : a ∈ acc
    · rw [if_pos h, ih]
      simp only [List.mem_cons]
      constructor
      · rintro (hx | hx)
        · exact Or.inl hx
        · exact Or.inr (Or.inr hx)
      · rintro (hx | hx | hx)
        · exact Or.inl hx
        · exact Or.inl (hx ▸ h)
        · exact Or.inr hx
    · rw [if_neg h, ih]
      simp only [List.mem_append, List.mem_singleton, List.mem_cons]
      tauto

theorem nodup_jsDedup_foldl (l : List String) : ∀ (acc : List String),
    acc.Nodup →
    (l.foldl (fun acc s => if s ∈ acc then acc else acc ++ [s]) acc).Nodup := by
  induction l with
  | nil => intro acc h; simpa using h
  | cons a t ih =>
    intro acc hacc
    simp only [List.foldl_cons]
    by_cases h : a ∈ acc
    · rw [if_pos h]; exact ih acc hacc
    · rw [if_neg h]
      exact ih _ (by simp [List.nodup_append, hacc, h])

theorem mem_jsDedup (l : List String) (x : String) : x ∈ jsDedup l ↔ x ∈ l := by
  unfold jsDedup; rw [mem_jsDedup_foldl]; simp

theorem nodup_jsDedup (l : List String) : (jsDedup l).Nodup :=
  nodup_jsDedup_foldl l [] List.nodup_nil

theorem jsDedup_perm_of_perm {l₁ l₂ : List String} (h : l₁.Perm l₂) :
    (jsDedup l₁).Perm (jsDedup l₂) := by
  rw [List.perm_ext_iff_of_nodup (nodup_jsDedup _) (nodup_jsDedup _)]
  intro a
  rw [mem_jsDedup, mem_jsDedup]
  exact ⟨fun hx => h.mem_iff.mp hx, fun hx => h.mem_iff.mpr hx⟩

/-- The sorted distinct values of a collection depend only on the multiset
of entries. -/
theorem distinctSorted_eq_of_perm {l₁ l₂ : List String} (h : l₁.Perm l₂) :
    distinctSorted l₁ = distinctSorted l₂ := by
  have hp : (sortStrings (jsDedup l₁)).Perm (sortStrings (jsDedup l₂)) :=
    ((List.perm_insertionSort _ _).trans (jsDedup_perm_of_perm h)).trans
      (List.perm_insertionSort _ _).symm
  exact List.eq_of_perm_of_sorted hp
    (List.sorted_insertionSort _ _) (List.sorted_insertionSort _ _)

theorem omin_right_comm (z : Option ℚ) (a b : ℚ) :
    omin (omin z a) b = omin (omin z b) a := by
  cases z <;> simp [omin, min_comm, min_right_comm, min_left_comm, inf_right_comm, inf_left_comm, inf_comm]

theorem precoMinFold_eq_of_perm {l₁ l₂ : List Product} (h : l₁.Perm l₂) :
    precoMinFold l₁ = precoMinFold l₂ := by
  unfold precoMinFold
  refine h.foldl_eq' (fun x _ y _ z => ?_) none
  by_cases hx : 0 < x.preco_vista <;> by_cases hy : 0 < y.preco_vista <;>
    simp [hx, hy, omin_right_comm]

theorem precoMaxFold_eq_of_perm {l₁ l₂ : List Product} (h : l₁.Perm l₂) :
    precoMaxFold l₁ = precoMaxFold l₂ := by
  unfold precoMaxFold
  refine h.foldl_eq' (fun x _ y _ z => ?_) 0
  by_cases hx : 0 < x.preco_vista <;> by_cases hy : 0 < y.preco_vista <;>
    simp [hx, hy, sup_right_comm]

theorem espacoMinFold_eq_of_perm {l₁ l₂ : List Product} (h : l₁.Perm l₂) :
    espacoMinFold l₁ = espacoMinFold l₂ := by
  unfold espacoMinFold
  refine h.foldl_eq' (fun x _ y _ z => ?_) none
  cases hx : x.espaco_armazenamento_gb <;> cases hy : y.espaco_armazenamento_gb <;>
    simp [omin_right_comm]

theorem espacoMaxFold_eq_of_perm {l₁ l₂ : List Product} (h : l₁.Perm l₂) :
    espacoMaxFold l₁ = espacoMaxFold l₂ := by
  unfold espacoMaxFold
  refine h.foldl_eq' (fun x _ y _ z => ?_) 0
  cases hx : x.espaco_armazenamento_gb <;> cases hy : y.espaco_armazenamento_gb <;>
    simp [sup_right_comm]

/-- The facet values are invariant under permutation of the collection:
the distinct-value sets and the min/max accumulators do not depend on
element order. -/
theorem getFilterValues_eq_of_perm {l₁ l₂ : List Product} (h : l₁.Perm l₂) :
    getFilterValues l₁ = getFilterValues l₂ := by
  unfold getFilterValues
  rw [distinctSorted_eq_of_perm ((h.filter _).map Product.modelo),
    distinctSorted_eq_of_perm ((h.filter _).map Product.tipo),
    distinctSorted_eq_of_perm ((h.filter _).map Product.marca),
    distinctSorted_eq_of_perm ((h.filter _).map Product.site_origem),
    precoMinFold_eq_of_perm h, precoMaxFold_eq_of_perm h,
    espacoMinFold_eq_of_perm h, espacoMaxFold_eq_of_perm h]

theorem GET_snd_eq (cache : List Product) (f : SearchFilters) :
    (GET cache f).2 =
      if someFilterActive f then cache else applySort f.sortBy cache := rfl

/-- Whatever the query does to the cached array, the records in it are
preserved up to order. -/
theorem GET_snd_perm (cache : List Product) (f : SearchFilters) :
    ((GET cache f).2).Perm cache := by
  rw [GET_snd_eq]; split
  · exact List.Perm.refl cache
  · exact applySort_perm _ _

/-- The facets of every response are those of the full collection the call
started from. -/
theorem GET_filters_eq (cache : List Product) (f : SearchFilters) :
    (GET cache f).1.filters = getFilterValues cache := by
  have h : (GET cache f).1.filters = getFilterValues ((GET cache f).2) := rfl
  rw [h]
  exact getFilterValues_eq_of_perm (GET_snd_perm cache f)

theorem GET_total_eq (cache : List Product) (f : SearchFilters) :
    (GET cache f).1.total = (applyFilters f cache).length := by
  show (applySort f.sortBy (applyFilters f cache)).length = _
  exact applySort_length _ _

theorem GET_totalPages_eq (cache : List Product) (f : SearchFilters) :
    (GET cache f).1.totalPages =
      Int.ceil (((GET cache f).1.total : ℚ) /
        ((((if f.limit = 0 then 20 else f.limit) : ℤ)) : ℚ)) := rfl

theorem GET_products_slice (cache : List Product) (f : SearchFilters) :
    (GET cache f).1.products =
      jsSlice (((if f.page = 0 then 1 else f.page) - 1) *
          (if f.limit = 0 then 20 else f.limit))
        ((((if f.page = 0 then 1 else f.page) - 1) *
          (if f.limit = 0 then 20 else f.limit)) +
          (if f.limit = 0 then 20 else f.limit))
        (applySort f.sortBy (applyFilters f cache)) := rfl

/-- Changing only the requested page leaves the filter pipeline unchanged. -/
theorem applyFilters_set_page (f : SearchFilters) (p : ℤ) (l : List Product) :
    applyFilters { f with page := p } l = applyFilters f l := by
  cases f; rfl

theorem someFilterActive_set_page (f : SearchFilters) (p : ℤ) :
    someFilterActive { f with page := p } = someFilterActive f := by
  cases f; rfl

/-- ECMAScript slice with a non-negative window is drop-then-take. -/
theorem jsSlice_eq_drop_take {α : Type} (s m : ℤ) (hs : 0 ≤ s) (hm : 0 ≤ m)
    (l : List α) :
    jsSlice s (s + m) l = (l.drop s.toNat).take m.toNat := by
  unfold jsSlice
  have hlen : (0 : ℤ) ≤ (l.length : ℤ) := Int.ofNat_nonneg l.length
  dsimp only
  rw [if_neg (by omega), if_neg (by omega)]
  by_cases hcase : s ≤ (l.length : ℤ)
  · rw [min_eq_left hcase, List.take_eq_take]
    simp only [List.length_drop]
    omega
  · rw [min_eq_right (le_of_not_le hcase)]
    have h1 : l.drop ((l.length : ℤ)).toNat = [] := by simp
    have h2 : l.drop s.toNat = [] := by
      apply List.drop_eq_nil_of_le; omega
    rw [h1, h2]
    simp

/-- Splitting a list into `k` consecutive chunks of size `limit` loses no
element when `k * limit` covers the list. -/
theorem sum_chunks {α : Type} (limit : ℕ) : ∀ (k : ℕ) (L : List α),
    L.length ≤ k * limit →
    ((List.range k).map (fun i => ((L.drop (i * limit)).take limit).length)).sum
      = L.length := by
  intro k
  induction k with
  | zero =>
    intro L hL
    simp only [Nat.zero_mul, Nat.le_zero] at hL
    simp [hL]
  | succ k ih =>
    intro L hL
    rw [List.range_succ_eq_map]
    simp only [List.map_cons, List.map_map, List.sum_cons]
    have hfun : (List.range k).map
          ((fun i => ((L.drop (i * limit)).take limit).length) ∘ Nat.succ)
        = (List.range k).map
          (fun i => (((L.drop limit).drop (i * limit)).take limit).length) := by
      apply List.map_congr_left
      intro i _
      simp only [Function.comp_apply, List.drop_drop, Nat.succ_eq_add_one]
      congr 2
      ring_nf
    have hL' : L.length ≤ k * limit + limit := by
      rw [Nat.add_mul, one_mul] at hL; exact hL
    rw [hfun, ih (L.drop limit) (by simp only [List.length_drop]; omega)]
    simp only [Nat.zero_mul, List.drop_zero, List.length_take, List.length_drop]
    omega

/-- Inserting `a` into `L` with a comparator that only looks at `key`
passes over exactly the elements with a strictly smaller insertion rank, so
the `key = q` class gains `a` at its front when `key a = q` and is
untouched otherwise. -/
theorem filter_orderedInsert (r : Product → Product → Prop) [DecidableRel r]
    (key : Product → ℚ) (hkey : ∀ a b : Product, ¬ r a b → key b ≠ key a)
    (a : Product) (q : ℚ) :
    ∀ L : List Product,
      (List.orderedInsert r a L).filter (fun p => decide (key p = q)) =
        if key a = q then
          a :: L.filter (fun p => decide (key p = q))
        else L.filter (fun p => decide (key p = q)) := by
  intro L
  induction L with
  | nil =>
    by_cases h : key a = q <;> simp [List.orderedInsert, List.filter_cons, h]
  | cons b t ih =>
    by_cases hr : r a b
    · rw [List.orderedInsert, if_pos hr]
      by_cases h : key a = q <;> simp [List.filter_cons, h]
    · rw [List.orderedInsert, if_neg hr]
      have hbq : key b ≠ key a := hkey a b hr
      by_cases hb : key b = q
      · have h : key a ≠ q := fun h => hbq (hb.trans h.symm)
        simp [List.filter_cons, hb, h, ih]
      · by_cases h : key a = q <;> simp [List.filter_cons, hb, h, ih]

/-- Stability of the sort, phrased on key classes: the subsequence of
records with any fixed key is unchanged by the sort. -/
theorem filter_insertionSort (r : Product → Product → Prop) [DecidableRel r]
    (key : Product → ℚ) (hkey : ∀ a b : Product, ¬ r a b → key b ≠ key a)
    (q : ℚ) :
    ∀ l : List Product,
      (l.insertionSort r).filter (fun p => decide (key p = q)) =
        l.filter (fun p => decide (key p = q)) := by
  intro l
  induction l with
  | nil => rfl
  | cons a t ih =>
    rw [List.insertionSort, filter_orderedInsert r key hkey a q]
    by_cases h : key a = q <;> simp [List.filter_cons, h, ih]

/-- Two permutations of the same records that are both sorted by
nonincreasing price coincide when no two records share a price. -/
theorem eq_of_perm_sorted_nodup_keys :
    ∀ l₁ l₂ : List Product, l₁.Perm l₂ → l₁.Sorted priceGe →
      l₂.Sorted priceGe → (l₁.map Product.preco_vista).Nodup → l₁ = l₂ := by
  intro l₁
  induction l₁ with
  | nil =>
    intro l₂ hp _ _ _
    exact (List.Perm.eq_nil hp.symm).symm
  | cons a t ih =>
    intro l₂ hp hs1 hs2 hnd
    cases l₂ with
    | nil => exact absurd (List.Perm.eq_nil hp) (by simp)
    | cons b t₂ =>
      by_cases hab : a = b
      · subst hab
        have htp := hp.cons_inv
        rw [ih t₂ htp hs1.of_cons hs2.of_cons
          (by simpa [List.nodup_cons] using (List.nodup_cons.mp hnd).2)]
      · exfalso
        have hbmem : b ∈ a :: t := hp.mem_iff.mpr (List.mem_cons_self b t₂)
        have hamem : a ∈ b :: t₂ := hp.mem_iff.mp (List.mem_cons_self a t)
        have hb_t : b ∈ t := by
          rcases List.mem_cons.mp hbmem with h | h
          · exact absurd h.symm hab
          · exact h
        have ha_t2 : a ∈ t₂ := by
          rcases List.mem_cons.mp hamem with h | h
          · exact absurd h hab
          · exact h
        have h1 : b.preco_vista ≤ a.preco_vista :=
          List.rel_of_sorted_cons hs1 b hb_t
        have h2 : a.preco_vista ≤ b.preco_vista :=
          List.rel_of_sorted_cons hs2 a ha_t2
        have heq : b.preco_vista = a.preco_vista := le_antisymm h1 h2
        have hnotin : a.preco_vista ∉ t.map Product.preco_vista :=
          (List.nodup_cons.mp hnd).1
        exact hnotin (heq ▸ List.mem_map_of_mem Product.preco_vista hb_t)

theorem suffix_tail {c : Char} {l cs : List Char}
    (h : List.IsSuffix (c :: l) cs) : List.IsSuffix l cs := by
  obtain ⟨p, hp⟩ := h
  refine ⟨p ++ [c], ?_⟩
  rw [List.append_assoc, List.singleton_append]
  exact hp

theorem numTail_snd_suffix (d1 r1 : List Char) :
    List.IsSuffix (numTail d1 r1).2 r1 := by
  unfold numTail
  cases r1 with
  | nil => exact List.suffix_rfl
  | cons sep rest =>
    by_cases hsep : sep = '.' ∨ sep = ','
    · by_cases hd2 : (rest.takeWhile Char.isDigit).isEmpty
      · simp only [if_pos hsep, if_pos hd2]
        exact List.suffix_rfl
      · simp only [if_pos hsep, if_neg hd2]
        exact (List.dropWhile_suffix _).trans (suffix_tail List.suffix_rfl)
    · simp only [if_neg hsep]
      exact List.suffix_rfl

/-- A successful anchored match exhibits the two unit characters inside
the scanned text. -/
theorem matchAt_units (u1 u2 : Char) (cs m : List Char)
    (h : matchAt u1 u2 cs = some m) :
    ∃ a b t, List.IsSuffix (a :: b :: t) cs ∧
      a.toLower = u1 ∧ b.toLower = u2 := by
  unfold matchAt at h
  by_cases hd : (cs.takeWhile Char.isDigit).isEmpty
  · simp [hd] at h
  simp only [if_neg hd] at h
  have hsufr4 : List.IsSuffix
      ((numTail (cs.takeWhile Char.isDigit)
        (cs.dropWhile Char.isDigit)).2.dropWhile isJsSpace) cs :=
    ((List.dropWhile_suffix _).trans (numTail_snd_suffix _ _)).trans
      (List.dropWhile_suffix _)
  cases hr4 : (numTail (cs.takeWhile Char.isDigit)
      (cs.dropWhile Char.isDigit)).2.dropWhile isJsSpace with
  | nil => rw [hr4] at h; simp at h
  | cons a rest =>
    cases rest with
    | nil => rw [hr4] at h; simp at h
    | cons b t =>
      rw [hr4] at h
      rw [hr4] at hsufr4
      by_cases hu : a.toLower = u1 ∧ b.toLower = u2
      · exact ⟨a, b, t, hsufr4, hu.1, hu.2⟩
      · simp [hu] at h

theorem hasSubstr_of_suffix_pair (u1 u2 : Char) {a b : Char} {t cs : List Char}
    (hsuf : List.IsSuffix (a :: b :: t) cs)
    (h1 : a.toLower = u1) (h2 : b.toLower = u2) :
    hasSubstr [u1, u2] (cs.map Char.toLower) = true := by
  obtain ⟨p, hp⟩ := hsuf
  subst hp
  induction p with
  | nil => simp [hasSubstr, startsWithB, h1, h2]
  | cons c p ih =>
    have ih' : hasSubstr [u1, u2]
        (List.map Char.toLower p ++
          a.toLower :: b.toLower :: List.map Char.toLower t) = true := by
      simpa [List.map_append] using ih
    simp [hasSubstr, ih']

/-- A successful pattern search implies the lower-cased unit token occurs
in the lower-cased text. -/
theorem findMatch_units (u1 u2 : Char) :
    ∀ cs m : List Char, findMatch u1 u2 cs = some m →
      hasSubstr [u1, u2] (cs.map Char.toLower) = true := by
  intro cs
  induction cs with
  | nil => intro m h; simp [findMatch] at h
  | cons c t ih =>
    intro m h
    rw [findMatch] at h
    cases hma : matchAt u1 u2 (c :: t) with
    | some m' =>
      obtain ⟨a, b, t', hsuf, h1, h2⟩ := matchAt_units u1 u2 (c :: t) m' hma
      exact hasSubstr_of_suffix_pair u1 u2 hsuf h1 h2
    | none =>
      rw [hma] at h
      dsimp at h
      have := ih m h
      simp [hasSubstr, this]

/-- With no unit token anywhere in the text, both capacity patterns fail
and the extractor returns `none`. -/
theorem extract_none_of_no_token (s : String)
    (ht : hasSubstr ['t', 'b'] (s.toList.map Char.toLower) = false)
    (hg : hasSubstr ['g', 'b'] (s.toList.map Char.toLower) = false) :
    extractStorageInGB s = none := by
  unfold extractStorageInGB
  split
  · rfl
  have h1 : tryPattern 't' 'b' s.toList = none := by
    unfold tryPattern
    cases hf : findMatch 't' 'b' s.toList with
    | none => rfl
    | some m =>
      exact absurd (findMatch_units 't' 'b' s.toList m hf) (by rw [ht]; simp)
  have h2 : tryPattern 'g' 'b' s.toList = none := by
    unfold tryPattern
    cases hf : findMatch 'g' 'b' s.toList with
    | none => rfl
    | some m =>
      exact absurd (findMatch_units 'g' 'b' s.toList m hf) (by rw [hg]; simp)
  rw [h1, h2]

theorem parseMantissa_nonneg (cs : List Char) (q : ℚ) (rest : List Char)
    (h : parseMantissa cs = some (q, rest)) : 0 ≤ q := by
  unfold parseMantissa at h
  dsimp only at h
  split at h
  · split at h
    · split at h
      · simp at h
      · simp only [Option.some.injEq, Prod.mk.injEq] at h
        obtain ⟨h1, _⟩ := h
        rw [← h1]; positivity
    · simp at h
  · split at h
    · simp only [Option.some.injEq, Prod.mk.injEq] at h
      obtain ⟨h1, _⟩ := h
      rw [← h1]; positivity
    · simp only [Option.some.injEq, Prod.mk.injEq] at h
      obtain ⟨h1, _⟩ := h
      rw [← h1]; positivity

theorem applyExp_nonneg (m : ℚ) (ex : ℤ) (hm : 0 ≤ m) : 0 ≤ applyExp m ex := by
  unfold applyExp
  split <;> positivity

theorem parseUnsignedFloat_cases (cs : List Char) :
    parseUnsignedFloat cs = JSNum.nan ∨ parseUnsignedFloat cs = JSNum.inf ∨
      ∃ q : ℚ, parseUnsignedFloat cs = JSNum.num q ∧ 0 ≤ q := by
  unfold parseUnsignedFloat
  split
  · exact Or.inr (Or.inl rfl)
  · cases hm : parseMantissa cs with
    | none => exact Or.inl rfl
    | some p =>
      obtain ⟨m, rest⟩ := p
      exact Or.inr (Or.inr
        ⟨_, rfl, applyExp_nonneg _ _ (parseMantissa_nonneg cs m rest hm)⟩)

theorem mem_replaceFirst {x b a : Char} :
    ∀ {l : List Char}, x ∈ replaceFirst l a b → x ∈ l ∨ x = b := by
  intro l
  induction l with
  | nil => simp [replaceFirst]
  | cons c t ih =>
    simp only [replaceFirst]
    split
    · intro h
      rcases List.mem_cons.mp h with h | h
      · exact Or.inr h
      · exact Or.inl (List.mem_cons_of_mem c h)
    · intro h
      rcases List.mem_cons.mp h with h | h
      · exact Or.inl (h ▸ List.mem_cons_self c t)
      · rcases ih h with h' | h'
        · exact Or.inl (List.mem_cons_of_mem c h')
        · exact Or.inr h'

theorem parseFloat_nonneg_of_no_sign (s : String)
    (hminus : '-' ∉ s.toList) :
    parseFloat s = JSNum.nan ∨ parseFloat s = JSNum.inf ∨
      ∃ q : ℚ, parseFloat s = JSNum.num q ∧ 0 ≤ q := by
  unfold parseFloat
  have hsuf : List.IsSuffix (s.toList.dropWhile isJsSpace) s.toList :=
    List.dropWhile_suffix _
  have hsub : ∀ x : Char, x ∈ s.toList.dropWhile isJsSpace → x ∈ s.toList :=
    fun x hx => hsuf.sublist.mem hx
  dsimp only
  split
  · rename_i r heq
    exact absurd (hsub '-' (heq ▸ List.mem_cons_self '-' r)) hminus
  · exact parseUnsignedFloat_cases _
  · exact parseUnsignedFloat_cases _

theorem normalizePrice_match_nonneg (cl : List Char) (hm : '-' ∉ cl) :
    (match parseFloat (String.mk cl) with
      | JSNum.nan => JSNum.num 0
      | v => v) = JSNum.inf ∨
    ∃ q : ℚ,
      (match parseFloat (String.mk cl) with
        | JSNum.nan => JSNum.num 0
        | v => v) = JSNum.num q ∧ 0 ≤ q := by
  have hm' : '-' ∉ (String.mk cl).toList := hm
  rcases parseFloat_nonneg_of_no_sign (String.mk cl) hm' with h | h | ⟨q, hq, hq0⟩
  · rw [h]
    exact Or.inr ⟨0, rfl, le_refl 0⟩
  · rw [h]
    exact Or.inl rfl
  · rw [hq]
    exact Or.inr ⟨q, rfl, hq0⟩

/-- Price normalization of an input with no minus sign (hence no way to
form a negative literal after cleaning, which only removes characters or
introduces a dot) never yields a negative value: the result is `Infinity`
or a non-negative rational. -/
theorem normalizePrice_nonneg_core (s : String)
    (hminus : '-' ∉ s.toList) :
    normalizePrice s = JSNum.inf ∨
      ∃ q : ℚ, normalizePrice s = JSNum.num q ∧ 0 ≤ q := by
  unfold normalizePrice
  split
  · exact Or.inr ⟨0, rfl, le_refl 0⟩
  have hcl0sub : ∀ x : Char,
      x ∈ s.toList.filter (fun c => !(isJsSpace c)) → x ∈ s.toList :=
    fun x hx => (List.mem_filter.mp hx).1
  have hclsub : ∀ x : Char, x ≠ '.' →
      x ∈ (if (s.toList.filter (fun c => !(isJsSpace c))).contains ',' then
        replaceFirst
          ((s.toList.filter (fun c => !(isJsSpace c))).filter
            (fun c => c != '.')) ',' '.'
      else if (s.toList.filter (fun c => !(isJsSpace c))).contains '.' then
        if (splitOnChar '.' (s.toList.filter (fun c => !(isJsSpace c)))).length = 2 ∧
            ((splitOnChar '.' (s.toList.filter
              (fun c => !(isJsSpace c)))).getD 1 []).length = 2 then
          s.toList.filter (fun c => !(isJsSpace c))
        else (s.toList.filter (fun c => !(isJsSpace c))).filter
          (fun c => c != '.')
      else s.toList.filter (fun c => !(isJsSpace c))) → x ∈ s.toList := by
    intro x hxdot hx
    split at hx
    · rcases mem_replaceFirst hx with h | h
      · exact hcl0sub x (List.mem_filter.mp h).1
      · exact absurd h hxdot
    · split at hx
      · split at hx
        · exact hcl0sub x hx
        · exact hcl0sub x (List.mem_filter.mp hx).1
      · exact hcl0sub x hx
  exact normalizePrice_match_nonneg _
    (fun hx => hminus (hclsub '-' (by decide) hx))

/-- C1: the claim says `load` assigns to every canonical record an
`originalIndex` equal to its 0-based position in the concatenated
sequence, and that a default-order query returns records ordered by it.
The code never assigns that field (it is also missing from the `Product`
type that `route.ts` reads it from): on every loaded record the property
is absent, the `sortBy=original` comparator computes
`undefined - undefined = NaN` (treated as `+0`) for every pair, and a
default-order query returns the current order of the cached array — after
an unfiltered price-ascending query has reordered the cache in place, a
default-order query over the two records loaded from prices 10.00 and 5.00
returns price order `[5, 10]`, not ingestion order `[10, 5]`. -/
theorem c1_originalIndex_never_assigned :
    loadCombine [mkRaw "A" "10.00"] [mkRaw "B" "5.00"] = cacheAB ∧
    (loadCombine [mkRaw "A" "10.00"] [mkRaw "B" "5.00"]).map
      Product.originalIndex = [none, none] ∧
    (GET ((GET cacheAB { fBase with sortBy := "preco_asc" }).2)
      fBase).1.products.map Product.preco_vista = [5, 10] := by
  refine ⟨?_, rfl, by decide⟩
  simp +decide [loadCombine, normalizeRaw, mkRaw, mkProd, cacheAB,
    Product.mk.injEq, normalizePrice, parseFloat, parseUnsignedFloat,
    parseMantissa, parseExponent, applyExp, digitsVal, digitVal, jsNeg,
    replaceFirst, splitOnChar, isBlank, isJsSpace, JSNum.toRat,
    extractStorageInGB, hasGames]

/-- C2 counterexample: on the two-record cache with prices `[10, 5]`, an
unfiltered price-ascending query hands the cached array itself to the
in-place sort, so after evaluation the cached collection is `[5, 10]` — a
different order than before the call, refuting the claim that the cached
instance is exactly what it was. -/
theorem c2_cache_mutation_counterexample :
    (GET cacheAB { fBase with sortBy := "preco_asc" }).2 =
      [mkProd "B" 5, mkProd "A" 10] ∧
    decide ((GET cacheAB { fBase with sortBy := "preco_asc" }).2 = cacheAB)
      = false := by
  decide

/-- C2 (amended): evaluation never changes the multiset of cached records,
and it leaves the cached collection exactly unchanged whenever at least one
filter stage runs (filtering copies into a fresh array before the in-place
sort); with no active filter the sort stage may reorder the cached array in
place. -/
theorem c2_evaluation_cache_effect (cache : List Product) (f : SearchFilters) :
    ((GET cache f).2).Perm cache ∧
    (someFilterActive f = true → (GET cache f).2 = cache) := by
  refine ⟨GET_snd_perm cache f, fun h => ?_⟩
  rw [GET_snd_eq, if_pos h]

theorem c2_witness :
    ((GET cacheAB { fBase with query := some "a" }).2).Perm cacheAB ∧
    (GET cacheAB { fBase with query := some "a" }).2 = cacheAB :=
  ⟨(c2_evaluation_cache_effect cacheAB { fBase with query := some "a" }).1,
   (c2_evaluation_cache_effect cacheAB { fBase with query := some "a" }).2
     (by decide)⟩

/-- C3 counterexample: `parsePrice` (`normalizePrice`) is claimed to return
a finite, non-negative number for every input string; the input `"-5"`
yields the negative value `-5` (parseFloat accepts a sign), and the input
`"Infinity"` yields a non-finite value. -/
theorem c3_negative_price_counterexample :
    normalizePrice "-5" = JSNum.num (-5) ∧ (-5 : ℚ) < 0 ∧
    normalizePrice "Infinity" = JSNum.inf := by
  refine ⟨?_, by norm_num, ?_⟩ <;>
  · simp +decide [normalizePrice, parseFloat, parseUnsignedFloat,
      parseMantissa, parseExponent, applyExp, digitsVal, digitVal, jsNeg,
      replaceFirst, splitOnChar, isBlank, isJsSpace]
    try norm_num

/-- C3 (amended): the guarantee fails as stated — an input with a minus
sign can parse to a negative number and the result can be non-finite (the
`Infinity` literal; in the program any literal beyond the double range,
such as `"1e999"`, likewise overflows to `Infinity`).  What survives is
non-negativity for sign-free inputs: for every input string containing no
minus sign, `parsePrice` never returns a negative number — the result is
either `Infinity` or a non-negative number. -/
theorem c3_nonneg_for_unsigned_inputs (s : String)
    (hminus : '-' ∉ s.toList) :
    normalizePrice s = JSNum.inf ∨
      ∃ q : ℚ, normalizePrice s = JSNum.num q ∧ 0 ≤ q :=
  normalizePrice_nonneg_core s hminus

theorem c3_witness :
    normalizePrice "449,90" = JSNum.inf ∨
      ∃ q : ℚ, normalizePrice "449,90" = JSNum.num q ∧ 0 ≤ q :=
  c3_nonneg_for_unsigned_inputs "449,90" (by decide)

/-- C4: `parsePrice` maps `"3999.00"` to `3999.00`, `"4.499"` to `4499`
and `"449,90"` to `449.90`, per the ordered rules: a comma makes dots
thousands separators and the comma the decimal point; else exactly one dot
with a 2-digit fraction is a decimal point; else all dots are removed. -/
theorem c4_price_format_examples :
    normalizePrice "3999.00" = JSNum.num 3999 ∧
    normalizePrice "4.499" = JSNum.num 4499 ∧
    normalizePrice "449,90" = JSNum.num (4499 / 10) := by
  refine ⟨?_, ?_, ?_⟩ <;>
  · simp +decide [normalizePrice, parseFloat, parseUnsignedFloat,
      parseMantissa, parseExponent, applyExp, digitsVal, digitVal, jsNeg,
      replaceFirst, splitOnChar, isBlank, isJsSpace]
    try norm_num

/-- C5: `parseStorageGB` maps `"825 GB"` to `825` and both `"1 TB"` and
`"1TB"` to `1024` (TB tried before GB, values scaled by 1024); a comma in
the numeric part is a decimal separator (`"1,5 TB"` gives `1536`); and
every input without a recognizable unit token (no case-insensitive `tb` or
`gb` substring) yields `none`, never `0`. -/
theorem c5_storage_parsing :
    extractStorageInGB "825 GB" = some 825 ∧
    extractStorageInGB "1 TB" = some 1024 ∧
    extractStorageInGB "1TB" = some 1024 ∧
    extractStorageInGB "1,5 TB" = some 1536 ∧
    ∀ s : String, hasSubstr ['t', 'b'] (s.toList.map Char.toLower) = false →
      hasSubstr ['g', 'b'] (s.toList.map Char.toLower) = false →
      extractStorageInGB s = none := by
  refine ⟨?_, ?_, ?_, ?_, extract_none_of_no_token⟩ <;>
  · simp +decide [extractStorageInGB, tryPattern, findMatch, matchAt, numTail,
      parseFloat, parseUnsignedFloat, parseMantissa, parseExponent, applyExp,
      digitsVal, digitVal, jsNeg, replaceFirst, isBlank, isJsSpace]
    try norm_num

theorem c5_witness : extractStorageInGB "sem unidade" = none :=
  c5_storage_parsing.2.2.2.2 "sem unidade" (by decide) (by decide)

/-- C9: if any configured raw source cannot be read, the whole load fails:
`loadProducts` returns the empty collection, never a partial one built
from only the readable sources. -/
theorem c9_source_failure_empty (src1 src2 : Option (List RawProduct))
    (h : src1 = none ∨ src2 = none) :
    (loadProducts src1 src2 none).1 = [] := by
  rcases h with h | h
  · subst h; rfl
  · subst h; cases src1 <;> rfl

theorem c9_witness :
    (loadProducts none (some [mkRaw "B" "5.00"]) none).1 = [] :=
  c9_source_failure_empty none (some [mkRaw "B" "5.00"]) (Or.inl rfl)

/-- C10: a failed load is never cached — on failure `loadProducts` returns
`[]` and leaves the cache unset (so the next call re-attempts the full
load); only a successful load is stored; and any call that finds a
populated cache returns exactly that cached collection, unchanged. -/
theorem c10_cache_discipline (src1 src2 : Option (List RawProduct)) :
    ((src1 = none ∨ src2 = none) → loadProducts src1 src2 none = ([], none)) ∧
    (∀ s1 s2 : List RawProduct, src1 = some s1 → src2 = some s2 →
      loadProducts src1 src2 none =
        (loadCombine s1 s2, some (loadCombine s1 s2))) ∧
    (∀ c : List Product, loadProducts src1 src2 (some c) = (c, some c)) := by
  refine ⟨?_, ?_, fun c => rfl⟩
  · rintro (h | h)
    · subst h; rfl
    · subst h; cases src1 <;> rfl
  · rintro s1 s2 h1 h2
    subst h1; subst h2
    rfl

theorem c10_witness :
    loadProducts none (some [mkRaw "B" "5.00"]) none = ([], none) ∧
    loadProducts (some [mkRaw "A" "10.00"]) (some [mkRaw "B" "5.00"]) none =
      (loadCombine [mkRaw "A" "10.00"] [mkRaw "B" "5.00"],
        some (loadCombine [mkRaw "A" "10.00"] [mkRaw "B" "5.00"])) ∧
    loadProducts (some [mkRaw "A" "10.00"]) (some [mkRaw "B" "5.00"])
      (some cacheAB) = (cacheAB, some cacheAB) :=
  ⟨(c10_cache_discipline none (some [mkRaw "B" "5.00"])).1 (Or.inl rfl),
   (c10_cache_discipline (some [mkRaw "A" "10.00"])
     (some [mkRaw "B" "5.00"])).2.1 _ _ rfl rfl,
   (c10_cache_discipline (some [mkRaw "A" "10.00"])
     (some [mkRaw "B" "5.00"])).2.2 cacheAB⟩

/-- C7: the facet values in a response are always those of the entire
unfiltered collection, so two queries that differ only in their filter
fields receive identical facet values. -/
theorem c7_facets_filter_invariant (cache : List Product)
    (f g : SearchFilters) (_hfg : sameNonFilterFields f g) :
    (GET cache f).1.filters = (GET cache g).1.filters ∧
    (GET cache f).1.filters = getFilterValues cache := by
  refine ⟨?_, GET_filters_eq cache f⟩
  rw [GET_filters_eq, GET_filters_eq]

theorem c7_witness :
    (GET cacheAB { fBase with query := some "x" }).1.filters =
      (GET cacheAB { fBase with precoMin := some 7 }).1.filters :=
  (c7_facets_filter_invariant cacheAB { fBase with query := some "x" }
    { fBase with precoMin := some 7 } ⟨rfl, rfl, rfl⟩).1

theorem applySort_asc (l : List Product) :
    applySort "preco_asc" l = l.insertionSort priceLe := by
  simp [applySort]

theorem applySort_desc (l : List Product) :
    applySort "preco_desc" l = l.insertionSort priceGe := by
  simp [applySort]

/-- C8: on any filtered set, the price-ascending and price-descending
sorts are permutations of it whose price sequences are exact reverses of
each other; records with a tied price keep their relative original order
in both results (stability); and when no price is tied, the descending
result is exactly the reverse of the ascending one. -/
theorem c8_sort_reversal_stability (cache : List Product) (f : SearchFilters) :
    ((applySort "preco_asc" (applyFilters f cache)).Perm
        (applyFilters f cache) ∧
      (applySort "preco_desc" (applyFilters f cache)).Perm
        (applyFilters f cache)) ∧
    ((applySort "preco_asc" (applyFilters f cache)).map
      Product.preco_vista).Sorted (· ≤ ·) ∧
    (applySort "preco_desc" (applyFilters f cache)).map Product.preco_vista =
      ((applySort "preco_asc" (applyFilters f cache)).map
        Product.preco_vista).reverse ∧
    (∀ q : ℚ,
      (applySort "preco_asc" (applyFilters f cache)).filter
          (fun p => decide (p.preco_vista = q)) =
        (applyFilters f cache).filter (fun p => decide (p.preco_vista = q)) ∧
      (applySort "preco_desc" (applyFilters f cache)).filter
          (fun p => decide (p.preco_vista = q)) =
        (applyFilters f cache).filter (fun p => decide (p.preco_vista = q))) ∧
    (((applyFilters f cache).map Product.preco_vista).Nodup →
      applySort "preco_desc" (applyFilters f cache) =
        (applySort "preco_asc" (applyFilters f cache)).reverse) := by
  rw [applySort_asc, applySort_desc]
  have permA := List.perm_insertionSort priceLe (applyFilters f cache)
  have permD := List.perm_insertionSort priceGe (applyFilters f cache)
  have hsortA := List.sorted_insertionSort priceLe (applyFilters f cache)
  have hsortD := List.sorted_insertionSort priceGe (applyFilters f cache)
  have hmapA : (((applyFilters f cache).insertionSort priceLe).map
      Product.preco_vista).Sorted (· ≤ ·) :=
    List.Pairwise.map Product.preco_vista (fun _ _ h => h) hsortA
  have hmapD : (((applyFilters f cache).insertionSort priceGe).map
      Product.preco_vista).Sorted (fun x y : ℚ => y ≤ x) :=
    List.Pairwise.map Product.preco_vista (fun _ _ h => h) hsortD
  have hkeyLe : ∀ a b : Product, ¬ priceLe a b →
      b.preco_vista ≠ a.preco_vista :=
    fun a b h => ne_of_lt (lt_of_not_le h)
  have hkeyGe : ∀ a b : Product, ¬ priceGe a b →
      b.preco_vista ≠ a.preco_vista :=
    fun a b h => ne_of_gt (lt_of_not_le h)
  refine ⟨⟨permA, permD⟩, hmapA, ?_, ?_, ?_⟩
  · haveI : IsAntisymm ℚ (fun x y : ℚ => y ≤ x) :=
      ⟨fun a b h1 h2 => le_antisymm h2 h1⟩
    have hrevS : ((((applyFilters f cache).insertionSort priceLe).map
        Product.preco_vista).reverse).Sorted (fun x y : ℚ => y ≤ x) := by
      rw [List.Sorted, List.pairwise_reverse]
      exact hmapA
    have hperm : (((applyFilters f cache).insertionSort priceGe).map
        Product.preco_vista).Perm
        ((((applyFilters f cache).insertionSort priceLe).map
          Product.preco_vista).reverse) :=
      ((permD.trans permA.symm).map Product.preco_vista).trans
        (List.reverse_perm _).symm
    exact List.eq_of_perm_of_sorted hperm hmapD hrevS
  · intro q
    exact ⟨filter_insertionSort priceLe Product.preco_vista hkeyLe q _,
      filter_insertionSort priceGe Product.preco_vista hkeyGe q _⟩
  · intro hnd
    have hsortRevA : (((applyFilters f cache).insertionSort
        priceLe).reverse).Sorted priceGe := by
      rw [List.Sorted, List.pairwise_reverse]
      exact hsortA
    have hpermDA : (((applyFilters f cache).insertionSort priceGe)).Perm
        (((applyFilters f cache).insertionSort priceLe).reverse) :=
      (permD.trans permA.symm).trans (List.reverse_perm _).symm
    have hndD : ((((applyFilters f cache).insertionSort priceGe)).map
        Product.preco_vista).Nodup :=
      ((permD.map Product.preco_vista).nodup_iff).mpr hnd
    exact eq_of_perm_sorted_nodup_keys _ _ hpermDA hsortD hsortRevA hndD

theorem c8_witness :
    applySort "preco_desc" (applyFilters fBase cacheAB) =
      (applySort "preco_asc" (applyFilters fBase cacheAB)).reverse :=
  (c8_sort_reversal_stability cacheAB fBase).2.2.2.2 (by decide)

theorem GET_products_take_drop (cache : List Product) (f : SearchFilters)
    (hp : 1 ≤ f.page) (hl : 1 ≤ f.limit) :
    (GET cache f).1.products =
      ((applySort f.sortBy (applyFilters f cache)).drop
        ((f.page - 1) * f.limit).toNat).take f.limit.toNat := by
  rw [GET_products_slice]
  rw [if_neg (by omega : ¬ f.page = 0), if_neg (by omega : ¬ f.limit = 0)]
  exact jsSlice_eq_drop_take _ _ (mul_nonneg (by omega) (by omega)) (by omega) _

theorem GET_products_page (cache : List Product) (f : SearchFilters)
    (hl : 1 ≤ f.limit) (i : ℕ) :
    (GET cache { f with page := (i : ℤ) + 1 }).1.products =
      ((applySort f.sortBy (applyFilters f cache)).drop
        (i * f.limit.toNat)).take f.limit.toNat := by
  have hp' : 1 ≤ ({ f with page := (i : ℤ) + 1 } : SearchFilters).page := by
    show (1 : ℤ) ≤ (i : ℤ) + 1
    omega
  have h := GET_products_take_drop cache { f with page := (i : ℤ) + 1 } hp' hl
  rw [h, applyFilters_set_page]
  have hidx : ((({ f with page := (i : ℤ) + 1 } : SearchFilters).page - 1) *
      ({ f with page := (i : ℤ) + 1 } : SearchFilters).limit).toNat =
      i * f.limit.toNat := by
    show (((i : ℤ) + 1 - 1) * f.limit).toNat = i * f.limit.toNat
    have h1 : ((i : ℤ) + 1 - 1) = (i : ℤ) := by ring
    rw [h1,
      show f.limit = ((f.limit.toNat : ℕ) : ℤ) from
        (Int.toNat_of_nonneg (by omega)).symm,
      ← Nat.cast_mul, Int.toNat_natCast, Int.toNat_natCast]
  rw [hidx]

/-- C6: for every collection and query spec with `page ≥ 1` and a positive
page size: `total` is the number of records after filtering and is at most
the collection length; `totalPages = ceil(total / limit)`; the returned
records are the slice `[(page-1)*limit, (page-1)*limit + limit)` of the
sorted filtered list, clipped to bounds; an out-of-range page yields an
empty slice, not an error; and the page lengths over all pages sum to
`total`. -/
theorem c6_pagination (cache : List Product) (f : SearchFilters)
    (hp : 1 ≤ f.page) (hl : 1 ≤ f.limit) :
    (GET cache f).1.total = (applyFilters f cache).length ∧
    (GET cache f).1.total ≤ cache.length ∧
    (GET cache f).1.totalPages =
      Int.ceil (((GET cache f).1.total : ℚ) / (f.limit : ℚ)) ∧
    (GET cache f).1.products =
      ((applySort f.sortBy (applyFilters f cache)).drop
        ((f.page - 1) * f.limit).toNat).take f.limit.toNat ∧
    (((GET cache f).1.total : ℤ) ≤ (f.page - 1) * f.limit →
      (GET cache f).1.products = []) ∧
    ((List.range (GET cache f).1.totalPages.toNat).map (fun (i : ℕ) =>
        (GET cache { f with page := (i : ℤ) + 1 }).1.products.length)).sum =
      (GET cache f).1.total := by
  have htot := GET_total_eq cache f
  have hprod := GET_products_take_drop cache f hp hl
  have hTP : (GET cache f).1.totalPages =
      Int.ceil (((GET cache f).1.total : ℚ) / (f.limit : ℚ)) := by
    rw [GET_totalPages_eq, if_neg (by omega : ¬ f.limit = 0)]
  have hlenL : (applySort f.sortBy (applyFilters f cache)).length =
      (GET cache f).1.total := by
    rw [htot, applySort_length]
  refine ⟨htot, ?_, hTP, hprod, ?_, ?_⟩
  · rw [htot]
    exact (applyFilters_sublist f cache).length_le
  · intro hle
    rw [hprod]
    have hdl : (applySort f.sortBy (applyFilters f cache)).length ≤
        ((f.page - 1) * f.limit).toNat := by omega
    rw [List.drop_eq_nil_of_le hdl]
    exact List.take_nil
  · have hmap : (List.range (GET cache f).1.totalPages.toNat).map (fun (i : ℕ) =>
        (GET cache { f with page := (i : ℤ) + 1 }).1.products.length)
      = (List.range (GET cache f).1.totalPages.toNat).map (fun (i : ℕ) =>
        (((applySort f.sortBy (applyFilters f cache)).drop
          (i * f.limit.toNat)).take f.limit.toNat).length) := by
      apply List.map_congr_left
      intro i _
      rw [GET_products_page cache f hl i]
    rw [hmap]
    have h0 : (0 : ℤ) < f.limit := by omega
    have hpos : (0 : ℚ) < (f.limit : ℚ) := by exact_mod_cast h0
    have hq : ((GET cache f).1.total : ℚ) ≤
        ((Int.ceil (((GET cache f).1.total : ℚ) / (f.limit : ℚ)) : ℤ) : ℚ) *
          (f.limit : ℚ) := by
      have h1 := Int.le_ceil (((GET cache f).1.total : ℚ) / (f.limit : ℚ))
      calc ((GET cache f).1.total : ℚ)
          = (((GET cache f).1.total : ℚ) / (f.limit : ℚ)) * (f.limit : ℚ) := by
            field_simp
        _ ≤ _ := mul_le_mul_of_nonneg_right h1 hpos.le
    have hz : ((GET cache f).1.total : ℤ) ≤
        Int.ceil (((GET cache f).1.total : ℚ) / (f.limit : ℚ)) * f.limit := by
      exact_mod_cast hq
    have hTnn : 0 ≤ Int.ceil (((GET cache f).1.total : ℚ) / (f.limit : ℚ)) := by
      apply Int.ceil_nonneg
      apply div_nonneg (by positivity) hpos.le
    set T := Int.ceil (((GET cache f).1.total : ℚ) / (f.limit : ℚ)) with hT
    have hcast : ((T.toNat * f.limit.toNat : ℕ) : ℤ) = T * f.limit := by
      push_cast [Int.toNat_of_nonneg hTnn,
        Int.toNat_of_nonneg (by omega : (0 : ℤ) ≤ f.limit)]
      ring
    have hle2 : ((GET cache f).1.total : ℤ) ≤
        ((T.toNat * f.limit.toNat : ℕ) : ℤ) := by rw [hcast]; exact hz
    have hcover : (applySort f.sortBy (applyFilters f cache)).length ≤
        T.toNat * f.limit.toNat := by
      rw [hlenL]
      exact_mod_cast hle2
    rw [hTP, ← hlenL]
    exact sum_chunks f.limit.toNat T.toNat _ hcover

theorem c6_witness :
    (GET cacheAB fBase).1.total = (applyFilters fBase cacheAB).length ∧
    (GET cacheAB fBase).1.total ≤ cacheAB.length ∧
    (GET cacheAB fBase).1.totalPages =
      Int.ceil (((GET cacheAB fBase).1.total : ℚ) / (fBase.limit : ℚ)) ∧
    (GET cacheAB fBase).1.products =
      ((applySort fBase.sortBy (applyFilters fBase cacheAB)).drop
        ((fBase.page - 1) * fBase.limit).toNat).take fBase.limit.toNat ∧
    (((GET cacheAB fBase).1.total : ℤ) ≤ (fBase.page - 1) * fBase.limit →
      (GET cacheAB fBase).1.products = []) ∧
    ((List.range (GET cacheAB fBase).1.totalPages.toNat).map (fun (i : ℕ) =>
        (GET cacheAB { fBase with page := (i : ℤ) + 1 }).1.products.length)).sum
      = (GET cacheAB fBase).1.total :=
  c6_pagination cacheAB fBase (by decide) (by decide)

end VGC
